import Mathlib

/-!
Verification of the linear-solver core (`linear_solver_internal.cpp`).

The development shallowly embeds the four entry points of the source file:

* `evaluate`            — the non-batched numeric evaluation;
* `evaluateDGen`        — the batched numeric sensitivity evaluation;
* `evaluateMXGen`       — the symbolic (expression-graph) sensitivity engine;
* `propagateSparsityGen` — the bit-vector sparsity dependency propagator
  (the active branch of the source);
* the constructor `LinearSolverInternal::LinearSolverInternal`, embedded as
  `mkLinearSolver`.

Numeric values (C++ `double`) are modelled as rationals.  The opaque
factorization backend is a parameter `S : List Rat → List Rat → Bool → List Rat`
taking the factorized matrix values, a right-hand-side buffer and the transpose
flag, and returning the solved buffer; calls to `prepare` and to the in-place
`solve` are recorded in an event trace.  Dense buffers are row-major lists
(`nrhs` rows of `n` entries each, matching the source's `DMatrix(nrhs,n)`
layout); sparse matrices carry an explicit position list.  Buffer aliasing
checks of the source (pointer equality such as `fwdSeed[d][0]!=fwdSens[d][0]`)
are modelled by explicit boolean flags, the distinct `DMatrix` objects of a
direction being otherwise separate values.
-/

/-- Backend events: one `prep` per `prepare()` call, one `solv tr` per
in-place `solve(buffer,nrhs,tr)` call. -/
inductive Ev where
  | prep : Ev
  | solv : Bool → Ev
  deriving DecidableEq, Repr

/-- Dense row-major entry: row `r`, column `c` of a buffer with `n` columns. -/
def dent (n : Nat) (d : List Rat) (r c : Nat) : Rat :=
  d.getD (r * n + c) 0

/-- Entry of a sparse matrix stored as values over an explicit position list. -/
def spEnt (pos : List (Nat × Nat)) (d : List Rat) (i j : Nat) : Rat :=
  match pos.findIdx? (fun p => p == (i, j)) with
  | some k => d.getD k 0
  | none => 0

/-- Row-major list of all positions of a dense `nrow` by `ncol` matrix. -/
def densePos (nrow ncol : Nat) : List (Nat × Nat) :=
  (List.range nrow).flatMap (fun i => (List.range ncol).map (fun j => (i, j)))

/-- Sum of `f 0 + ... + f (n-1)`. -/
def sumR (n : Nat) (f : Nat → Rat) : Rat :=
  (List.range n).foldl (fun a t => a + f t) 0

/-- Modelled from the spec: the matrix container's multiply-accumulate
`DMatrix::mul_no_alloc_nn(x,y,z)` (`z += x*y`), at the forward-sensitivity
call site: `x` dense `nrhs` by `n`, `y` sparse `n` by `n` over `Asp`,
`z` dense `nrhs` by `n`. -/
def mulAcc_nn (n nrhs : Nat) (x : List Rat) (Asp : List (Nat × Nat))
    (y : List Rat) (z : List Rat) : List Rat :=
  List.zipWith (fun zv p => zv + sumR n (fun t => dent n x p.1 t * spEnt Asp y t p.2))
    z (densePos nrhs n)

/-- Modelled from the spec: `DMatrix::mul_no_alloc_nt(x,y,z)` (`z += x*yᵀ`),
at the transposed forward-sensitivity call site. -/
def mulAcc_nt (n nrhs : Nat) (x : List Rat) (Asp : List (Nat × Nat))
    (y : List Rat) (z : List Rat) : List Rat :=
  List.zipWith (fun zv p => zv + sumR n (fun t => dent n x p.1 t * spEnt Asp y p.2 t))
    z (densePos nrhs n)

/-- Modelled from the spec: `DMatrix::mul_no_alloc_tn(x,y,z)` (`z += xᵀ*y`),
at the adjoint call sites: `x`, `y` dense `nrhs` by `n`, `z` sparse over the
position list `zsp` (only entries present in that pattern are updated). -/
def mulAcc_tn (n nrhs : Nat) (x y : List Rat) (zsp : List (Nat × Nat))
    (z : List Rat) : List Rat :=
  List.zipWith (fun zv p => zv + sumR nrhs (fun t => dent n x t p.1 * dent n y t p.2))
    z zsp

/-- One forward sensitivity direction of `evaluateDGen`: the seed values for
`B` and for `A`, and whether the seed buffer for `B` is the same storage as
the sensitivity output buffer (`fwdSeed[d][0]==fwdSens[d][0]`). -/
structure FwdDir where
  seedB : List Rat
  seedA : List Rat
  aliased : Bool
  deriving DecidableEq, Repr

/-- One adjoint direction of `evaluateDGen`: the incoming seed values, the
initial contents of the two adjoint-sensitivity buffers, and whether the seed
buffer is the same storage as the B-adjoint buffer
(`adjSeed[d][0]==adjSens[d][0]`). -/
structure AdjDir where
  seedX : List Rat
  sensB : List Rat
  sensA : List Rat
  aliased : Bool
  deriving DecidableEq, Repr

/-- One forward direction of `LinearSolverInternal::evaluateDGen`
(source lines 442-454): copy the seed into the sensitivity buffer unless they
are the same storage (either way the buffer then holds the seed values),
negate in place, accumulate the product `X*Ahat` (or `X*Ahatᵀ` when
transposed) with `mul_no_alloc_nn`/`mul_no_alloc_nt`, negate in place again,
and solve the buffer in place with the same transpose flag. -/
def fwdStep (S : List Rat → List Rat → Bool → List Rat) (fact X : List Rat)
    (Asp : List (Nat × Nat)) (n nrhs : Nat) (tr : Bool) (d : FwdDir) : List Rat :=
  let buf := d.seedB
  let buf := buf.map (fun v => -v)
  let buf := if tr then mulAcc_nt n nrhs X Asp d.seedA buf
             else mulAcc_nn n nrhs X Asp d.seedA buf
  let buf := buf.map (fun v => -v)
  S fact buf tr

/-- One adjoint direction of `LinearSolverInternal::evaluateDGen`
(source lines 457-477): negate the seed buffer in place, solve it in place
with the opposite transpose flag, accumulate `Xᵀ*buf` (or `bufᵀ*X` when
transposed) into the A-adjoint with `mul_no_alloc_tn`, then either negate the
shared buffer in place (seed storage equal to the B-adjoint storage), or set
the B-adjoint to its old value minus the buffer and fill the seed buffer with
zeros.  Returns (final seed buffer, final B-adjoint, final A-adjoint); in the
aliased case the first two components are the one shared buffer. -/
def adjStep (S : List Rat → List Rat → Bool → List Rat) (fact X : List Rat)
    (Asp : List (Nat × Nat)) (n nrhs : Nat) (tr : Bool) (d : AdjDir) :
    List Rat × List Rat × List Rat :=
  let buf := d.seedX.map (fun v => -v)
  let buf := S fact buf (!tr)
  let sA := if tr then mulAcc_tn n nrhs buf X Asp d.sensA
            else mulAcc_tn n nrhs X buf Asp d.sensA
  if d.aliased then
    let b := buf.map (fun v => -v)
    (b, b, sA)
  else
    (buf.map (fun _ => (0 : Rat)), List.zipWith (fun s l => s - l) d.sensB buf, sA)

/-- Forward-direction loop of `evaluateDGen`: per direction, one sensitivity
buffer and one `solv tr` backend event. -/
def runFwd (S : List Rat → List Rat → Bool → List Rat) (fact X : List Rat)
    (Asp : List (Nat × Nat)) (n nrhs : Nat) (tr : Bool) :
    List FwdDir → List (List Rat) × List Ev
  | [] => ([], [])
  | d :: rest =>
    let r := fwdStep S fact X Asp n nrhs tr d
    let p := runFwd S fact X Asp n nrhs tr rest
    (r :: p.1, Ev.solv tr :: p.2)

/-- Adjoint-direction loop of `evaluateDGen`: per direction, the three final
buffers and one `solv (!tr)` backend event. -/
def runAdj (S : List Rat → List Rat → Bool → List Rat) (fact X : List Rat)
    (Asp : List (Nat × Nat)) (n nrhs : Nat) (tr : Bool) :
    List AdjDir → List (List Rat × List Rat × List Rat) × List Ev
  | [] => ([], [])
  | d :: rest =>
    let r := adjStep S fact X Asp n nrhs tr d
    let p := runAdj S fact X Asp n nrhs tr rest
    (r :: p.1, Ev.solv (!tr) :: p.2)

/-- Result of one batched numeric evaluation: the primal solution, the forward
sensitivities, the adjoint outputs (final seed buffer, B-adjoint, A-adjoint
per direction) and the backend event trace. -/
structure DRes where
  X : List Rat
  fwdSens : List (List Rat)
  adjOut : List (List Rat × List Rat × List Rat)
  trace : List Ev
  deriving Repr

/-- Embedding of `LinearSolverInternal::evaluateDGen` (source lines 427-478):
write `A` into the backend and `prepare()` once; copy `B` into `X` unless they
are the same storage and solve `X` in place with flag `tr`; then run every
forward direction and every adjoint direction against the single cached
factorization. -/
def evaluateDGen (S : List Rat → List Rat → Bool → List Rat)
    (Asp : List (Nat × Nat)) (n nrhs : Nat) (Avals B : List Rat) (tr : Bool)
    (fwds : List FwdDir) (adjs : List AdjDir) : DRes :=
  let fact := Avals
  let X := S fact B tr
  let f := runFwd S fact X Asp n nrhs tr fwds
  let a := runAdj S fact X Asp n nrhs tr adjs
  ⟨X, f.1, a.1, Ev.prep :: Ev.solv tr :: (f.2 ++ a.2)⟩

/-- Failures of the non-batched numeric evaluation path. -/
inductive EvalErr where
  | derivativeRequest : Nat → Nat → EvalErr
  | prepFailed : EvalErr
  deriving DecidableEq, Repr

/-- Embedding of `LinearSolverInternal::evaluate` (source lines 75-106):
directional derivatives through this path are a usage error; otherwise call
`prepare()`, abort if the prepared flag was not set, and otherwise copy `B`
into `X` and solve in place non-transposed.  `prepOk` is whether the backend's
`prepare()` sets the prepared flag.  The second component is the backend event
trace of the call. -/
def evaluate (S : List Rat → List Rat → Bool → List Rat) (prepOk : Bool)
    (Avals B : List Rat) (nfdir nadir : Nat) :
    Except EvalErr (List Rat) × List Ev :=
  if nfdir ≠ 0 ∨ nadir ≠ 0 then
    (Except.error (EvalErr.derivativeRequest nfdir nadir), [])
  else if prepOk = false then
    (Except.error EvalErr.prepFailed, [Ev.prep])
  else
    (Except.ok (S Avals B false), [Ev.prep, Ev.solv false])

/-- Sparsity pattern: number of rows, number of columns, and the row-major
list of structurally nonzero positions. -/
structure Sp where
  nrow : Nat
  ncol : Nat
  pos : List (Nat × Nat)
  deriving DecidableEq, Repr

/-- Columns with a structural nonzero in row `r` of the pattern. -/
def adjOfSp (sp : Sp) (r : Nat) : List Nat :=
  sp.pos.filterMap (fun p => if p.1 == r then some p.2 else none)

/-- Row currently matched to column `c`, in a column-to-row matching stored as
an association list. -/
def lookupCol (m : List (Nat × Nat)) (c : Nat) : Option Nat :=
  match m.find? (fun p => p.1 == c) with
  | some p => some p.2
  | none => none

/-- Rematch column `c` to row `r`. -/
def setMatch (m : List (Nat × Nat)) (c r : Nat) : List (Nat × Nat) :=
  (c, r) :: m.filter (fun p => p.1 != c)

/-- Modelled from the spec: one augmenting-path search of the structural-rank
oracle (maximum transversal of the bipartite row-column graph of the pattern);
the oracle itself (`CRSSparsity::dulmageMendelsohn` and the `rank`/`isSingular`
helpers) is not part of the source file.  Tries the columns `cols` for row
`r`; a matched column is stolen when its row can be augmented elsewhere.
Returns the augmented matching when one exists, and the visited-column set. -/
def kuhn (adjOf : Nat → List Nat) : Nat → List Nat → Nat → List Nat →
    List (Nat × Nat) → Option (List (Nat × Nat)) × List Nat
  | 0, _, _, visited, _ => (none, visited)
  | _ + 1, [], _, visited, _ => (none, visited)
  | fuel + 1, c :: rest, r, visited, m =>
    if c ∈ visited then kuhn adjOf fuel rest r visited m
    else
      match lookupCol m c with
      | none => (some (setMatch m c r), c :: visited)
      | some r2 =>
        match kuhn adjOf fuel (adjOf r2) r2 (c :: visited) m with
        | (some m2, vis2) => (some (setMatch m2 c r), vis2)
        | (none, vis2) => kuhn adjOf fuel rest r vis2 m

/-- Modelled from the spec: grow a maximum matching row by row. -/
def sprankGo (adjOf : Nat → List Nat) (fuel : Nat) (rows : List Nat)
    (m : List (Nat × Nat)) : List (Nat × Nat) :=
  match rows with
  | [] => m
  | r :: rest =>
    match (kuhn adjOf fuel (adjOf r) r [] m).1 with
    | some m2 => sprankGo adjOf fuel rest m2
    | none => sprankGo adjOf fuel rest m

/-- Modelled from the spec: the structural rank of a pattern, the quantity the
structural-rank oracle reports and the only part of its decomposition this
core consumes.  Computed as the size of a maximum row-column matching; the
fuel bounds the total number of search steps of one augmentation, which never
exceeds one step per nonzero per visited column. -/
def sprank (sp : Sp) : Nat :=
  (sprankGo (adjOfSp sp) ((sp.pos.length + 1) * (sp.ncol + 1) + 1)
    (List.range sp.nrow) []).length

/-- Construction failures: the pattern is not square, or it is structurally
rank-deficient (observed structural rank, required rank). -/
inductive ConstructErr where
  | notSquare : Nat → Nat → ConstructErr
  | singular : Nat → Nat → ConstructErr
  deriving DecidableEq, Repr

/-- A constructed solver instance: the pattern and the three numeric buffers
with their shapes. -/
structure LinSolverInst where
  Asp : Sp
  Adata : List Rat
  Bnrow : Nat
  Bncol : Nat
  Bdata : List Rat
  Xnrow : Nat
  Xncol : Nat
  Xdata : List Rat
  deriving DecidableEq, Repr

/-- Embedding of the constructor `LinearSolverInternal::LinearSolverInternal`
(source lines 35-62): assert the pattern is square, assert it is not
structurally rank-deficient (reporting the structural rank and the dimension),
and only then allocate `A` as zeros over the pattern, `B` as
`DMatrix(nrhs, n, 0)` (a dense zero buffer with `nrhs` rows of `n` entries)
and `X` as a copy of `B`. -/
def mkLinearSolver (sp : Sp) (nrhs : Nat) : Except ConstructErr LinSolverInst :=
  if sp.nrow ≠ sp.ncol then
    Except.error (ConstructErr.notSquare sp.nrow sp.ncol)
  else if sprank sp < sp.nrow then
    Except.error (ConstructErr.singular (sprank sp) sp.nrow)
  else
    Except.ok ⟨sp, List.replicate sp.pos.length 0,
      nrhs, sp.nrow, List.replicate (nrhs * sp.nrow) 0,
      nrhs, sp.nrow, List.replicate (nrhs * sp.nrow) 0⟩

/-- Bitwise OR of all masks in a list (`bvec_t` masks are naturals). -/
def orAll (l : List Nat) : Nat := l.foldl (fun a b => a ||| b) 0

/-- Bitwise OR of the masks at positions `a` up to (excluding) `b`. -/
def orRange (d : List Nat) (a b : Nat) : Nat := orAll ((d.drop a).take (b - a))

/-- Forward loop of the active branch of `propagateSparsityGen` (source lines
234-255): per right-hand-side row, OR the aggregate A-dependency with the row's
B masks and write the result to every X position of the row.  The argument is
the remaining `rowind` tail; positions are absolute because `rowind` of a CRS
pattern starts at 0 and the row segments are contiguous. -/
def fwdPropLoop (Adep : Nat) (B : List Nat) : List Nat → List Nat
  | [] => []
  | [_] => []
  | a :: b :: rest =>
    let ABdep := Adep ||| orRange B a b
    List.replicate (b - a) ABdep ++ fwdPropLoop Adep B (b :: rest)

/-- Reverse loop of the active branch of `propagateSparsityGen` (source lines
262-278): per row, collect the OR of the X masks, zero them, OR the collected
mask into the row's B masks, and accumulate it into the running aggregate.
Returns (new B masks, new X masks, aggregate). -/
def revPropLoop (B X : List Nat) : List Nat → List Nat × List Nat × Nat
  | [] => ([], [], 0)
  | [_] => ([], [], 0)
  | a :: b :: rest =>
    let Xdep := orRange X a b
    let p := revPropLoop B X (b :: rest)
    (((B.drop a).take (b - a)).map (fun v => v ||| Xdep) ++ p.1,
     List.replicate (b - a) 0 ++ p.2.1,
     Xdep ||| p.2.2)

/-- Embedding of the active (`#if 1`) branch of
`LinearSolverInternal::propagateSparsityGen` (source lines 220-285).  `rowind`
is the row-offset table of the (shared) B and X sparsity, `A`, `B`, `X` are
the per-nonzero dependency masks.  Returns the masks (A, B, X) after the pass.
The transpose flag of the source is unused by this branch. -/
def propagateSparsityGen (rowind : List Nat) (A B X : List Nat) (fwd : Bool)
    (_tr : Bool) : List Nat × List Nat × List Nat :=
  if fwd then
    let Adep := orAll A
    (A, B, fwdPropLoop Adep B rowind)
  else
    let p := revPropLoop B X rowind
    (A.map (fun v => v ||| p.2.2), p.1, p.2.1)

/-- Symbolic matrix expressions of the graph engine.  `nullE` is the default
constructed `MX()` (the empty expression used to clear a slot); `sparseZ` is
`MX::sparse(shape)`, the structural zero of a given shape; the remaining
constructors are the graph nodes the engine emits: symbols, solve nodes,
products, differences, sums, transposes, binary vertical concatenation and
vertical-split components (parent, recorded row offsets, component index). -/
inductive MX where
  | nullE : MX
  | sparseZ : Nat → Nat → MX
  | sym : Nat → Nat → Nat → MX
  | solveN : MX → MX → Bool → MX
  | mulN : MX → MX → MX
  | subN : MX → MX → MX
  | addN : MX → MX → MX
  | transN : MX → MX
  | vcat2 : MX → MX → MX
  | vsplitN : MX → List Nat → Nat → MX
  deriving DecidableEq, Repr

/-- Shape (rows, columns) of an expression. -/
def shapeOf : MX → Nat × Nat
  | MX.nullE => (0, 0)
  | MX.sparseZ r c => (r, c)
  | MX.sym _ r c => (r, c)
  | MX.solveN _ b _ => shapeOf b
  | MX.mulN x y => ((shapeOf x).1, (shapeOf y).2)
  | MX.subN a _ => shapeOf a
  | MX.addN a _ => shapeOf a
  | MX.transN a => ((shapeOf a).2, (shapeOf a).1)
  | MX.vcat2 a b => ((shapeOf a).1 + (shapeOf b).1, (shapeOf a).2)
  | MX.vsplitN _ offs i => (offs.getD (i + 1) 0 - offs.getD i 0, 0)

/-- Modelled from the spec: the graph engine's structural-zero detection
(`CasADi::isZero`), true exactly on empty and structurally zero expressions. -/
def isZeroMX : MX → Bool
  | MX.nullE => true
  | MX.sparseZ _ _ => true
  | _ => false

/-- Modelled from the spec: graph-engine product; a structurally zero operand
gives the structural zero of the product shape. -/
def mulMX (x y : MX) : MX :=
  if isZeroMX x || isZeroMX y then MX.sparseZ (shapeOf x).1 (shapeOf y).2
  else MX.mulN x y

/-- Modelled from the spec: graph-engine difference; subtracting a structural
zero is the identity. -/
def subMX (a b : MX) : MX :=
  if isZeroMX b then a else MX.subN a b

/-- Modelled from the spec: graph-engine sum; a structurally zero operand is
dropped. -/
def addMX (a b : MX) : MX :=
  if isZeroMX a then b else if isZeroMX b then a else MX.addN a b

/-- Modelled from the spec: graph-engine transpose. -/
def transMX (a : MX) : MX :=
  if isZeroMX a then MX.sparseZ (shapeOf a).2 (shapeOf a).1 else MX.transN a

/-- Modelled from the spec: vertical concatenation of a list of expressions
(a fold of binary concatenations; the singleton is returned unchanged). -/
def vertcatMX : List MX → MX
  | [] => MX.nullE
  | x :: xs => xs.foldl MX.vcat2 x

/-- Structural size of an expression, used to separate an expression from its
strict subexpressions. -/
def sizeMX : MX → Nat
  | MX.nullE => 1
  | MX.sparseZ _ _ => 1
  | MX.sym _ _ _ => 1
  | MX.solveN a b _ => sizeMX a + sizeMX b + 1
  | MX.mulN x y => sizeMX x + sizeMX y + 1
  | MX.subN a b => sizeMX a + sizeMX b + 1
  | MX.addN a b => sizeMX a + sizeMX b + 1
  | MX.transN a => sizeMX a + 1
  | MX.vcat2 a b => sizeMX a + sizeMX b + 1
  | MX.vsplitN p _ _ => sizeMX p + 1

/-- Residual of one forward direction of `evaluateMXGen` (source lines
146-151): `Bhat - mul(X, Ahat)`, or `Bhat - mul(X, trans(Ahat))` when
transposed. -/
def fwdResid (X : MX) (tr : Bool) (s : MX × MX) : MX :=
  if tr then subMX s.1 (mulMX X (transMX s.2)) else subMX s.1 (mulMX X s.2)

/-- Forward collection loop of `evaluateMXGen` (source lines 137-161): per
direction, either record the structural-zero sensitivity (left summand) or the
index the direction will occupy in the stacked right-hand side (right
summand), pushing the residual and the next row offset.  `k` is the number of
right-hand sides pushed so far and `off` the row offset reached so far. -/
def fwdCollect (X : MX) (tr : Bool) (k off : Nat) :
    List (MX × MX) → List (MX ⊕ Nat) × List MX × List Nat
  | [] => ([], [], [])
  | s :: rest =>
    let r := fwdResid X tr s
    if isZeroMX r then
      let p := fwdCollect X tr k off rest
      (Sum.inl (MX.sparseZ (shapeOf r).1 (shapeOf r).2) :: p.1, p.2.1, p.2.2)
    else
      let p := fwdCollect X tr (k + 1) (off + (shapeOf r).1) rest
      (Sum.inr k :: p.1, r :: p.2.1, (off + (shapeOf r).1) :: p.2.2)

/-- One adjoint direction of `evaluateMXGen`: the seed expression, the initial
contents of the two adjoint-sensitivity slots, and whether the seed slot is
the same graph slot as the B-adjoint slot (`adjSeed[d][0]==adjSens[d][0]`). -/
structure AdjDirMX where
  seed : MX
  sensB : MX
  sensA : MX
  aliased : Bool
  deriving DecidableEq, Repr

/-- Final contents of the three slots of one adjoint direction; when the seed
slot is aliased with the B-adjoint slot the first two components describe the
one shared slot. -/
structure AdjOutMX where
  seedSlot : MX
  sensBSlot : MX
  sensASlot : MX
  deriving DecidableEq, Repr

/-- Collection-phase record of one adjoint direction: a structurally zero seed
in a shared slot leaves everything untouched; a structurally zero seed in a
separate slot is copied to the sensitivity slot and its own slot cleared; a
nonzero seed is pushed at index `k` of the stacked right-hand side with its
slot cleared, the rest waiting for the solve phase. -/
inductive AdjPlan where
  | zeroShared : MX → MX → AdjPlan
  | zeroSeparate : MX → MX → AdjPlan
  | pending : Nat → MX → MX → Bool → AdjPlan
  deriving DecidableEq, Repr

/-- Adjoint collection loop of `evaluateMXGen` (source lines 177-194):
structurally zero seeds short-circuit (copying to the sensitivity slot and
clearing the seed slot only when the two slots differ); nonzero seeds are
pushed to the stacked right-hand side and their slot cleared at once. -/
def adjCollect (k off : Nat) : List AdjDirMX → List AdjPlan × List MX × List Nat
  | [] => ([], [], [])
  | d :: rest =>
    if isZeroMX d.seed then
      let p := adjCollect k off rest
      if d.aliased then
        (AdjPlan.zeroShared d.seed d.sensA :: p.1, p.2.1, p.2.2)
      else
        (AdjPlan.zeroSeparate d.seed d.sensA :: p.1, p.2.1, p.2.2)
    else
      let p := adjCollect (k + 1) (off + (shapeOf d.seed).1) rest
      (AdjPlan.pending k d.sensB d.sensA d.aliased :: p.1, d.seed :: p.2.1,
       (off + (shapeOf d.seed).1) :: p.2.2)

/-- Result of one symbolic evaluation: the primal output, the forward
sensitivities, the final adjoint slots, and the number of solve nodes emitted
by the primal, forward and adjoint phases. -/
structure MXRes where
  X : MX
  fwdSens : List MX
  adj : List AdjOutMX
  nSolvePrimal : Nat
  nSolveFwd : Nat
  nSolveAdj : Nat
  deriving DecidableEq, Repr

/-- Embedding of `LinearSolverInternal::evaluateMXGen` (source lines 121-218).
Primal: with no given output, a structurally zero `B` short-circuits to the
structural zero of its shape, otherwise one solve node is emitted.  Forward:
residuals are collected, the structurally zero ones short-circuiting; the
nonzero ones are stacked, solved by one solve node against the same transpose
flag, and split back by the recorded row offsets.  Adjoint: nonzero seeds are
stacked (each seed slot cleared as it is collected), solved by one solve node
against the opposite transpose flag, split back, propagated to the A-adjoint
by subtracting the sparsity-projected product, and to the B-adjoint by
overwrite (shared slot) or accumulation (separate slot). -/
def evaluateMXGen (A B : MX) (Xgiven : Option MX) (tr : Bool)
    (fwds : List (MX × MX)) (adjs : List AdjDirMX) : MXRes :=
  let prim : MX × Nat :=
    match Xgiven with
    | some x => (x, 0)
    | none =>
      if isZeroMX B then (MX.sparseZ (shapeOf B).1 (shapeOf B).2, 0)
      else (MX.solveN A B tr, 1)
  let X := prim.1
  let fc := fwdCollect X tr 0 0 fwds
  let fwdS : List MX :=
    if fc.2.1.isEmpty then
      fc.1.map (fun a => match a with
        | Sum.inl z => z
        | Sum.inr _ => MX.nullE)
    else
      let solF := MX.solveN A (vertcatMX fc.2.1) tr
      fc.1.map (fun a => match a with
        | Sum.inl z => z
        | Sum.inr i => MX.vsplitN solF (0 :: fc.2.2) i)
  let ac := adjCollect 0 0 adjs
  let adjOut : List AdjOutMX :=
    if ac.2.1.isEmpty then
      ac.1.map (fun p => match p with
        | AdjPlan.zeroShared seed sA => ⟨seed, seed, sA⟩
        | AdjPlan.zeroSeparate seed sA => ⟨MX.nullE, seed, sA⟩
        | AdjPlan.pending _ sB sA _ => ⟨MX.nullE, sB, sA⟩)
    else
      let solA := MX.solveN A (vertcatMX ac.2.1) (!tr)
      ac.1.map (fun p => match p with
        | AdjPlan.zeroShared seed sA => ⟨seed, seed, sA⟩
        | AdjPlan.zeroSeparate seed sA => ⟨MX.nullE, seed, sA⟩
        | AdjPlan.pending i sB sA aliased =>
          let sol := MX.vsplitN solA (0 :: ac.2.2) i
          let sA2 := subMX sA (if tr then mulMX (transMX sol) X else mulMX (transMX X) sol)
          if aliased then ⟨sol, sol, sA2⟩ else ⟨MX.nullE, addMX sB sol, sA2⟩)
  ⟨X, fwdS, adjOut, prim.2,
   if fc.2.1.isEmpty then 0 else 1,
   if ac.2.1.isEmpty then 0 else 1⟩

/-- Dense product `X*Ahat` (transpose flag false) or `X*Ahatᵀ` (true), as the
row-major value list of a dense `nrhs` by `n` result: the quantity
`mul_no_alloc_nn`/`mul_no_alloc_nt` accumulates in the forward directions. -/
def prodXA (n nrhs : Nat) (X : List Rat) (Asp : List (Nat × Nat))
    (Ahat : List Rat) (tr : Bool) : List Rat :=
  (densePos nrhs n).map (fun p =>
    if tr then sumR n (fun t => dent n X p.1 t * spEnt Asp Ahat p.2 t)
    else sumR n (fun t => dent n X p.1 t * spEnt Asp Ahat t p.2))

/-- Sparsity-projected product `xᵀ*y` over the position list `zsp`: the
quantity `mul_no_alloc_tn` accumulates in the adjoint directions. -/
def prodXtY (n nrhs : Nat) (x y : List Rat) (zsp : List (Nat × Nat)) : List Rat :=
  zsp.map (fun p => sumR nrhs (fun t => dent n x t p.1 * dent n y t p.2))

/-- Whether an event is a backend solve call. -/
def isSolveEv : Ev → Bool
  | Ev.prep => false
  | Ev.solv _ => true

/-- Whether an event is a backend prepare call. -/
def isPrepEv : Ev → Bool
  | Ev.prep => true
  | Ev.solv _ => false

/-- Default forward direction used with `List.getD`. -/
def dfltFwd : FwdDir := ⟨[], [], false⟩

/-- Default adjoint direction used with `List.getD`. -/
def dfltAdj : AdjDir := ⟨[], [], [], false⟩

/-- Default symbolic adjoint direction used with `List.getD`. -/
def dfltAdjMX : AdjDirMX := ⟨MX.nullE, MX.nullE, MX.nullE, false⟩

/-- Default symbolic adjoint output used with `List.getD`. -/
def dfltOutMX : AdjOutMX := ⟨MX.nullE, MX.nullE, MX.nullE⟩

/-- An identity backend: solving returns the right-hand side unchanged (a
legitimate backend whenever the factorized matrix is the identity). -/
def Sid : List Rat → List Rat → Bool → List Rat := fun _ b _ => b

/-- The dense one-by-one pattern. -/
def spUnit : Sp := ⟨1, 1, [(0, 0)]⟩

/-- The rejection pattern of the spec: two-by-two with only entry (0,0),
structural rank 1. -/
def spRank1 : Sp := ⟨2, 2, [(0, 0)]⟩

/-- The three-by-three tridiagonal pattern of the spec's concrete scenario. -/
def spTri : Sp := ⟨3, 3, [(0, 0), (0, 1), (1, 0), (1, 1), (1, 2), (2, 1), (2, 2)]⟩

/-- Residuals of all forward directions of the symbolic engine. -/
def residList (X : MX) (tr : Bool) (fwds : List (MX × MX)) : List MX :=
  fwds.map (fwdResid X tr)

/-- The structurally nonzero residuals, in direction order: the stacked
right-hand side of the forward phase. -/
def nzResids (X : MX) (tr : Bool) (fwds : List (MX × MX)) : List MX :=
  (residList X tr fwds).filter (fun r => !(isZeroMX r))

/-- Number of structurally nonzero residuals among the directions `fwds`. -/
def nzCountFwd (X : MX) (tr : Bool) (fwds : List (MX × MX)) : Nat :=
  fwds.countP (fun s => !(isZeroMX (fwdResid X tr s)))

/-- Row offsets reached after each stacked block, starting from `off`: the
tail of the `row_offset` vector of the source. -/
def offListMX (off : Nat) : List MX → List Nat
  | [] => []
  | r :: rest => (off + (shapeOf r).1) :: offListMX (off + (shapeOf r).1) rest

/-- Direction-indexed forward assignments (structural zero, or index in the
stacked right-hand side counting from `k`): the reference shape of
`fwdCollect`'s first component. -/
def asnList (X : MX) (tr : Bool) (k : Nat) : List (MX × MX) → List (MX ⊕ Nat)
  | [] => []
  | s :: rest =>
    let r := fwdResid X tr s
    if isZeroMX r then
      Sum.inl (MX.sparseZ (shapeOf r).1 (shapeOf r).2) :: asnList X tr k rest
    else
      Sum.inr k :: asnList X tr (k + 1) rest

/-- Direction-indexed adjoint plans counting stacked indices from `k`: the
reference shape of `adjCollect`'s first component. -/
def planListAdj (k : Nat) : List AdjDirMX → List AdjPlan
  | [] => []
  | d :: rest =>
    if isZeroMX d.seed then
      (if d.aliased then AdjPlan.zeroShared d.seed d.sensA
       else AdjPlan.zeroSeparate d.seed d.sensA) :: planListAdj k rest
    else
      AdjPlan.pending k d.sensB d.sensA d.aliased :: planListAdj (k + 1) rest

/-- The structurally nonzero adjoint seeds, in direction order: the stacked
right-hand side of the adjoint phase. -/
def adjRhs (adjs : List AdjDirMX) : List MX :=
  (adjs.filter (fun d => !(isZeroMX d.seed))).map AdjDirMX.seed

/-- Number of structurally nonzero adjoint seeds among the directions. -/
def nzCountAdj (adjs : List AdjDirMX) : Nat :=
  adjs.countP (fun d => !(isZeroMX d.seed))

/-- Per-row dependency masks of the reverse sparsity pass: the OR of the X
masks of each row, in row order. -/
def rowDeps (X : List Nat) : List Nat → List Nat
  | [] => []
  | [_] => []
  | a :: b :: rest => orRange X a b :: rowDeps X (b :: rest)

lemma countP_replicate {α : Type _} (p : α → Bool) (k : Nat) (e : α) :
    (List.replicate k e).countP p = if p e then k else 0 := by
  induction k with
  | zero => simp
  | succ m ih =>
    simp only [List.replicate_succ, List.countP_cons, ih]
    cases hp : p e <;> simp [hp]

lemma getD_map_lt {α β : Type _} (f : α → β) (l : List α) (d : Nat) (da : α)
    (db : β) (h : d < l.length) : (l.map f).getD d db = f (l.getD d da) := by
  induction l generalizing d with
  | nil => simp at h
  | cons x xs ih =>
    cases d with
    | zero => rfl
    | succ k =>
      simp only [List.map_cons, List.getD_cons_succ]
      exact ih k (by simpa using h)

lemma runFwd_fst (S : List Rat → List Rat → Bool → List Rat) (fact X : List Rat)
    (Asp : List (Nat × Nat)) (n nrhs : Nat) (tr : Bool) (fwds : List FwdDir) :
    (runFwd S fact X Asp n nrhs tr fwds).1 =
      fwds.map (fwdStep S fact X Asp n nrhs tr) := by
  induction fwds with
  | nil => rfl
  | cons d rest ih => simp [runFwd, ih]

lemma runFwd_snd (S : List Rat → List Rat → Bool → List Rat) (fact X : List Rat)
    (Asp : List (Nat × Nat)) (n nrhs : Nat) (tr : Bool) (fwds : List FwdDir) :
    (runFwd S fact X Asp n nrhs tr fwds).2 = fwds.map (fun _ => Ev.solv tr) := by
  induction fwds with
  | nil => rfl
  | cons d rest ih => simp [runFwd, ih]

lemma runAdj_fst (S : List Rat → List Rat → Bool → List Rat) (fact X : List Rat)
    (Asp : List (Nat × Nat)) (n nrhs : Nat) (tr : Bool) (adjs : List AdjDir) :
    (runAdj S fact X Asp n nrhs tr adjs).1 =
      adjs.map (adjStep S fact X Asp n nrhs tr) := by
  induction adjs with
  | nil => rfl
  | cons d rest ih => simp [runAdj, ih]

lemma runAdj_snd (S : List Rat → List Rat → Bool → List Rat) (fact X : List Rat)
    (Asp : List (Nat × Nat)) (n nrhs : Nat) (tr : Bool) (adjs : List AdjDir) :
    (runAdj S fact X Asp n nrhs tr adjs).2 =
      adjs.map (fun _ => Ev.solv (!tr)) := by
  induction adjs with
  | nil => rfl
  | cons d rest ih => simp [runAdj, ih]

lemma neg_zip_add_neg (b q : List Rat) :
    (List.zipWith (fun a c => a + c) (b.map (fun v => -v)) q).map (fun v => -v) =
      List.zipWith (fun a c => a - c) b q := by
  induction b generalizing q with
  | nil => simp
  | cons x xs ih =>
    cases q with
    | nil => simp
    | cons y ys =>
      simp only [List.map_cons, List.zipWith_cons_cons, ih]
      congr 1
      ring

lemma mulAcc_nn_eq (n nrhs : Nat) (x : List Rat) (Asp : List (Nat × Nat))
    (y z : List Rat) :
    mulAcc_nn n nrhs x Asp y z =
      List.zipWith (fun a c => a + c) z (prodXA n nrhs x Asp y false) := by
  simp [mulAcc_nn, prodXA, List.zipWith_map_right]

lemma mulAcc_nt_eq (n nrhs : Nat) (x : List Rat) (Asp : List (Nat × Nat))
    (y z : List Rat) :
    mulAcc_nt n nrhs x Asp y z =
      List.zipWith (fun a c => a + c) z (prodXA n nrhs x Asp y true) := by
  simp [mulAcc_nt, prodXA, List.zipWith_map_right]

lemma mulAcc_tn_eq (n nrhs : Nat) (x y : List Rat) (zsp : List (Nat × Nat))
    (z : List Rat) :
    mulAcc_tn n nrhs x y zsp z =
      List.zipWith (fun a c => a + c) z (prodXtY n nrhs x y zsp) := by
  simp [mulAcc_tn, prodXtY, List.zipWith_map_right]

lemma fwdStep_eq (S : List Rat → List Rat → Bool → List Rat) (fact X : List Rat)
    (Asp : List (Nat × Nat)) (n nrhs : Nat) (tr : Bool) (d : FwdDir) :
    fwdStep S fact X Asp n nrhs tr d =
      S fact (List.zipWith (fun a c => a - c) d.seedB (prodXA n nrhs X Asp d.seedA tr)) tr := by
  cases tr <;> simp [fwdStep, mulAcc_nn_eq, mulAcc_nt_eq, neg_zip_add_neg]

lemma adjStep_eq (S : List Rat → List Rat → Bool → List Rat) (fact X : List Rat)
    (Asp : List (Nat × Nat)) (n nrhs : Nat) (tr : Bool) (d : AdjDir) :
    adjStep S fact X Asp n nrhs tr d =
      (let lam := S fact (d.seedX.map (fun v => -v)) (!tr)
       let sA := List.zipWith (fun a c => a + c) d.sensA
         (if tr then prodXtY n nrhs lam X Asp else prodXtY n nrhs X lam Asp)
       if d.aliased then (lam.map (fun v => -v), lam.map (fun v => -v), sA)
       else (lam.map (fun _ => (0 : Rat)),
             List.zipWith (fun a c => a - c) d.sensB lam, sA)) := by
  cases hd : d.aliased <;> cases tr <;>
    simp [adjStep, mulAcc_tn_eq, hd]

/-- C1: in the batched numeric evaluation, the forward sensitivity written to
the d-th forward-sensitivity buffer equals the in-place solve, with the same
transpose flag as the primal, of the residual `seedB - X*Ahat` (or
`seedB - X*Ahatᵀ` when transposed), where `X` is the primal solution; the
sign flip is realized by the two in-place negations around the accumulation
of the product (`fwdStep`), not by a differently-signed backend call. -/
theorem evaluateDGen_fwd_residual_solve
    (S : List Rat → List Rat → Bool → List Rat) (Asp : List (Nat × Nat))
    (n nrhs : Nat) (Avals B : List Rat) (tr : Bool)
    (fwds : List FwdDir) (adjs : List AdjDir) (d : Nat) (h : d < fwds.length) :
    (evaluateDGen S Asp n nrhs Avals B tr fwds adjs).fwdSens.getD d [] =
      S Avals
        (List.zipWith (fun a c => a - c) ((fwds.getD d dfltFwd).seedB)
          (prodXA n nrhs (S Avals B tr) Asp ((fwds.getD d dfltFwd).seedA) tr)) tr := by
  have h1 : (evaluateDGen S Asp n nrhs Avals B tr fwds adjs).fwdSens =
      fwds.map (fwdStep S Avals (S Avals B tr) Asp n nrhs tr) := by
    simp [evaluateDGen, runFwd_fst]
  rw [h1, getD_map_lt _ _ _ dfltFwd _ h, fwdStep_eq]

/-- Witness for C1 at a concrete one-by-one instance with the identity
backend. -/
theorem evaluateDGen_fwd_residual_solve_witness :
    (0 : Nat) < 1 ∧
    (evaluateDGen Sid [(0, 0)] 1 1 [1] [2] false [⟨[3], [4], false⟩] []).fwdSens.getD 0 [] =
      Sid [1]
        (List.zipWith (fun a c => a - c) [3]
          (prodXA 1 1 (Sid [1] [2] false) [(0, 0)] [4] false)) false :=
  ⟨by decide,
   evaluateDGen_fwd_residual_solve Sid [(0, 0)] 1 1 [1] [2] false
     [⟨[3], [4], false⟩] [] 0 (by decide)⟩

/-- C2 counterexample: with `lam` the in-place result of solving the negated
seed (as the claim defines it), the claim predicts the A-adjoint update
`sensA + (-(Xᵀ*lam))`; at this concrete one-by-one instance with the identity
backend the code produces `[-1]` while the claimed formula gives `[1]`. -/
theorem evaluateDGen_adjoint_sign_claim_false :
    ((evaluateDGen Sid [(0, 0)] 1 1 [1] [1] false []
        [⟨[1], [0], [0], false⟩]).adjOut.getD 0 ([], [], [])).2.2 = [(-1 : Rat)] ∧
    ¬ (((evaluateDGen Sid [(0, 0)] 1 1 [1] [1] false []
        [⟨[1], [0], [0], false⟩]).adjOut.getD 0 ([], [], [])).2.2 =
      List.zipWith (fun a c => a + c) [(0 : Rat)]
        ((prodXtY 1 1 (Sid [1] [1] false)
          (Sid [1] ([(1 : Rat)].map (fun v => -v)) true) [(0, 0)]).map (fun v => -v))) := by
  have h : ((evaluateDGen Sid [(0, 0)] 1 1 [1] [1] false []
      [⟨[1], [0], [0], false⟩]).adjOut.getD 0 ([], [], [])).2.2 = [(-1 : Rat)] := by
    simp [evaluateDGen, runAdj, adjStep, Sid, mulAcc_tn, sumR, dent, spEnt,
      List.range_succ]
  have h2 : List.zipWith (fun a c => a + c) [(0 : Rat)]
      ((prodXtY 1 1 (Sid [1] [1] false)
        (Sid [1] ([(1 : Rat)].map (fun v => -v)) true) [(0, 0)]).map (fun v => -v)) =
      [(1 : Rat)] := by
    simp [prodXtY, Sid, sumR, dent, spEnt, List.range_succ]
  refine ⟨h, ?_⟩
  rw [h, h2]
  intro hc
  have hc2 : (-1 : Rat) = 1 := by
    simpa using hc
  norm_num at hc2

/-- C2 as amended: for every adjoint direction d, the incoming seed is negated
and solved in place with the opposite transpose flag, giving `lam`; the
A-adjoint becomes `sensA + Xᵀ*lam` (or `sensA + lamᵀ*X` when transposed),
projected onto A's pattern; the B-adjoint is overwritten with `lam` negated
back to the original sign when the seed buffer is the same storage as the
adjoint-sensitivity buffer, and otherwise becomes `sensB - lam` with the seed
buffer cleared to zero. -/
theorem evaluateDGen_adjoint_update
    (S : List Rat → List Rat → Bool → List Rat) (Asp : List (Nat × Nat))
    (n nrhs : Nat) (Avals B : List Rat) (tr : Bool)
    (fwds : List FwdDir) (adjs : List AdjDir) (d : Nat) (h : d < adjs.length) :
    let dd := adjs.getD d dfltAdj
    let lam := S Avals (dd.seedX.map (fun v => -v)) (!tr)
    let out := (evaluateDGen S Asp n nrhs Avals B tr fwds adjs).adjOut.getD d ([], [], [])
    out.2.2 = List.zipWith (fun a c => a + c) dd.sensA
        (if tr then prodXtY n nrhs lam (S Avals B tr) Asp
         else prodXtY n nrhs (S Avals B tr) lam Asp) ∧
    (dd.aliased = true →
        out.1 = lam.map (fun v => -v) ∧ out.2.1 = lam.map (fun v => -v)) ∧
    (dd.aliased = false →
        out.1 = lam.map (fun _ => (0 : Rat)) ∧
        out.2.1 = List.zipWith (fun a c => a - c) dd.sensB lam) := by
  intro dd lam out
  have h1 : (evaluateDGen S Asp n nrhs Avals B tr fwds adjs).adjOut =
      adjs.map (adjStep S Avals (S Avals B tr) Asp n nrhs tr) := by
    simp [evaluateDGen, runAdj_fst]
  have h2 : out = adjStep S Avals (S Avals B tr) Asp n nrhs tr dd := by
    show (evaluateDGen S Asp n nrhs Avals B tr fwds adjs).adjOut.getD d ([], [], []) = _
    rw [h1, getD_map_lt _ _ _ dfltAdj _ h]
  rw [h2, adjStep_eq]
  cases hd : dd.aliased <;> simp [hd]

/-- Witness for the amended C2 at a concrete aliased one-by-one instance with
the identity backend. -/
theorem evaluateDGen_adjoint_update_witness :
    (0 : Nat) < 1 ∧
    (let dd := [(⟨[2], [5], [7], true⟩ : AdjDir)].getD 0 dfltAdj
     let lam := Sid [1] (dd.seedX.map (fun v => -v)) (!false)
     let out := (evaluateDGen Sid [(0, 0)] 1 1 [1] [3] false []
        [⟨[2], [5], [7], true⟩]).adjOut.getD 0 ([], [], [])
     out.2.2 = List.zipWith (fun a c => a + c) dd.sensA
        (if false then prodXtY 1 1 lam (Sid [1] [3] false) [(0, 0)]
         else prodXtY 1 1 (Sid [1] [3] false) lam [(0, 0)]) ∧
     (dd.aliased = true →
        out.1 = lam.map (fun v => -v) ∧ out.2.1 = lam.map (fun v => -v)) ∧
     (dd.aliased = false →
        out.1 = lam.map (fun _ => (0 : Rat)) ∧
        out.2.1 = List.zipWith (fun a c => a - c) dd.sensB lam)) :=
  ⟨by decide,
   evaluateDGen_adjoint_update Sid [(0, 0)] 1 1 [1] [3] false []
     [⟨[2], [5], [7], true⟩] 0 (by decide)⟩

/-- C3: in every batched numeric evaluation, for any numbers of forward and
adjoint directions, the backend is prepared exactly once, at the start, and
the trace after that single preparation consists of exactly the primal solve,
one solve with the same flag per forward direction and one solve with the
opposite flag per adjoint direction, all against the factorization of that
single preparation. -/
theorem evaluateDGen_single_preparation
    (S : List Rat → List Rat → Bool → List Rat) (Asp : List (Nat × Nat))
    (n nrhs : Nat) (Avals B : List Rat) (tr : Bool)
    (fwds : List FwdDir) (adjs : List AdjDir) :
    (evaluateDGen S Asp n nrhs Avals B tr fwds adjs).trace =
      Ev.prep :: Ev.solv tr ::
        (fwds.map (fun _ => Ev.solv tr) ++ adjs.map (fun _ => Ev.solv (!tr))) ∧
    (evaluateDGen S Asp n nrhs Avals B tr fwds adjs).trace.countP isPrepEv = 1 ∧
    (evaluateDGen S Asp n nrhs Avals B tr fwds adjs).trace.countP isSolveEv =
      1 + fwds.length + adjs.length := by
  have ht : (evaluateDGen S Asp n nrhs Avals B tr fwds adjs).trace =
      Ev.prep :: Ev.solv tr ::
        (fwds.map (fun _ => Ev.solv tr) ++ adjs.map (fun _ => Ev.solv (!tr))) := by
    simp [evaluateDGen, runFwd_snd, runAdj_snd]
  refine ⟨ht, ?_, ?_⟩
  · rw [ht]
    simp [List.countP_cons, List.countP_append, countP_replicate, isPrepEv]
  · rw [ht]
    simp [List.countP_cons, List.countP_append, countP_replicate, isSolveEv]
    omega

/-- C8: in the non-batched numeric evaluation with no directional derivative
request, a failed preparation aborts with an error after exactly one prepare
call and with no solve call, hence no retry and no partial result. -/
theorem evaluate_prepare_failure_aborts
    (S : List Rat → List Rat → Bool → List Rat) (Avals B : List Rat) :
    evaluate S false Avals B 0 0 = (Except.error EvalErr.prepFailed, [Ev.prep]) ∧
    (evaluate S false Avals B 0 0).2.countP isSolveEv = 0 ∧
    (evaluate S false Avals B 0 0).2.countP isPrepEv = 1 := by
  refine ⟨?_, ?_, ?_⟩ <;> simp [evaluate, isSolveEv, isPrepEv, List.countP_cons]

/-- C4 counterexample: with the one-by-one dense pattern and two right-hand
sides, construction succeeds and allocates B with `nrhs = 2` rows and `n = 1`
columns, not as the claimed dense n-by-nrhs (1 row, 2 columns) buffer. -/
theorem mkLinearSolver_B_shape_claim_false :
    (mkLinearSolver spUnit 2).toOption.map (fun inst => (inst.Bnrow, inst.Bncol)) =
      some (2, 1) ∧
    ¬ ((mkLinearSolver spUnit 2).toOption.map (fun inst => (inst.Bnrow, inst.Bncol)) =
      some (1, 2)) := by
  constructor <;> decide

/-- C4 as amended: construction with a non-square pattern fails reporting the
dimensions; construction with a square, structurally rank-deficient pattern
fails reporting the observed and the required structural rank; each failure
returns only the error, so no numeric buffer is built.  On success, A is
zero-initialized over the pattern, B is a zero-initialized dense buffer with
`nrhs` rows of `n` entries each (`DMatrix(nrhs,n,0)`, the transposed layout
of the claimed n-by-nrhs shape), and X has the same shape and contents as B;
moreover success implies the pattern was square with full structural rank. -/
theorem mkLinearSolver_validation (sp : Sp) (nrhs : Nat) :
    (sp.nrow ≠ sp.ncol →
      mkLinearSolver sp nrhs = Except.error (ConstructErr.notSquare sp.nrow sp.ncol)) ∧
    (sp.nrow = sp.ncol → sprank sp < sp.nrow →
      mkLinearSolver sp nrhs = Except.error (ConstructErr.singular (sprank sp) sp.nrow)) ∧
    (∀ inst, mkLinearSolver sp nrhs = Except.ok inst →
      inst.Asp = sp ∧ inst.Adata = List.replicate sp.pos.length 0 ∧
      inst.Bnrow = nrhs ∧ inst.Bncol = sp.nrow ∧
      inst.Bdata = List.replicate (nrhs * sp.nrow) 0 ∧
      inst.Xnrow = inst.Bnrow ∧ inst.Xncol = inst.Bncol ∧ inst.Xdata = inst.Bdata ∧
      sp.nrow = sp.ncol ∧ sp.nrow ≤ sprank sp) := by
  refine ⟨?_, ?_, ?_⟩
  · intro h
    simp only [mkLinearSolver]
    rw [if_pos h]
  · intro h1 h2
    simp only [mkLinearSolver]
    rw [if_neg (by omega), if_pos h2]
  · intro inst h
    simp only [mkLinearSolver] at h
    by_cases h1 : sp.nrow = sp.ncol
    · rw [if_neg (by omega)] at h
      by_cases h2 : sprank sp < sp.nrow
      · rw [if_pos h2] at h
        exact absurd h (by simp)
      · rw [if_neg h2] at h
        injection h with h3
        subst h3
        exact ⟨rfl, rfl, rfl, rfl, rfl, rfl, rfl, rfl, h1, by omega⟩
    · rw [if_pos h1] at h
      exact absurd h (by simp)

/-- Witness for the amended C4 on the spec's rejection pattern: square, with
structural rank 1 below the dimension 2, rejected carrying both ranks. -/
theorem mkLinearSolver_validation_witness :
    spRank1.nrow = spRank1.ncol ∧ sprank spRank1 < spRank1.nrow ∧
    mkLinearSolver spRank1 1 =
      Except.error (ConstructErr.singular (sprank spRank1) spRank1.nrow) :=
  ⟨rfl, by decide, (mkLinearSolver_validation spRank1 1).2.1 rfl (by decide)⟩

lemma sorted_head_le_getD (b : Nat) (rest : List Nat)
    (h : List.Pairwise (· ≤ ·) (b :: rest)) (j : Nat) (hj : j < (b :: rest).length) :
    b ≤ (b :: rest).getD j 0 := by
  cases j with
  | zero => simp
  | succ k =>
    have hk : k < rest.length := by simpa using hj
    have e : (b :: rest).getD (k + 1) 0 = rest.getD k 0 := rfl
    rw [e, List.getD_eq_getElem rest 0 hk]
    exact (List.pairwise_cons.mp h).1 _ (List.getElem_mem hk)

lemma fwdPropLoop_row (Adep : Nat) (B : List Nat) :
    ∀ (rowind : List Nat), List.Pairwise (· ≤ ·) rowind → ∀ i, i + 1 < rowind.length →
      ((fwdPropLoop Adep B rowind).drop (rowind.getD i 0 - rowind.getD 0 0)).take
          (rowind.getD (i + 1) 0 - rowind.getD i 0) =
        List.replicate (rowind.getD (i + 1) 0 - rowind.getD i 0)
          (Adep ||| orRange B (rowind.getD i 0) (rowind.getD (i + 1) 0)) := by
  intro rowind
  induction rowind with
  | nil => intro _ i hi; simp at hi
  | cons a rest ih =>
    intro hp i hi
    cases rest with
    | nil => simp at hi
    | cons b rest2 =>
      cases i with
      | zero =>
        simp only [fwdPropLoop, List.getD_cons_zero, List.getD_cons_succ,
          Nat.sub_self, List.drop_zero]
        exact List.take_left' (by simp)
      | succ j =>
        have hp2 : List.Pairwise (· ≤ ·) (b :: rest2) := (List.pairwise_cons.mp hp).2
        have hjlen : j + 1 < (b :: rest2).length := by simpa using hi
        have hbv : b ≤ (b :: rest2).getD j 0 :=
          sorted_head_le_getD b rest2 hp2 j (by omega)
        have hab : a ≤ b := (List.pairwise_cons.mp hp).1 b (by simp)
        have e1 : (a :: b :: rest2).getD (j + 1) 0 = (b :: rest2).getD j 0 := rfl
        have e2 : (a :: b :: rest2).getD (j + 2) 0 = (b :: rest2).getD (j + 1) 0 := rfl
        have e0 : (a :: b :: rest2).getD 0 0 = a := rfl
        rw [e1, e2, e0]
        have harith : (b :: rest2).getD j 0 - a =
            (List.replicate (b - a) (Adep ||| orRange B a b)).length +
              ((b :: rest2).getD j 0 - b) := by
          simp only [List.length_replicate]
          omega
        simp only [fwdPropLoop, harith, List.drop_append]
        have := ih hp2 j hjlen
        simpa using this

/-- C6: the forward pass of the sparsity propagator ORs every nonzero mask of
A into one aggregate, and writes, for each right-hand-side row i, the mask
`orAll A ||| (OR of B's masks in row i)` to every X position of row i: the
whole row segment of the output is one replicated mask. -/
theorem propagateSparsity_forward_rows (rowind A B X : List Nat) (tr : Bool)
    (i : Nat) (hs : List.Chain' (· ≤ ·) rowind) (h0 : rowind.getD 0 0 = 0)
    (hi : i + 1 < rowind.length) :
    (((propagateSparsityGen rowind A B X true tr).2.2).drop (rowind.getD i 0)).take
        (rowind.getD (i + 1) 0 - rowind.getD i 0) =
      List.replicate (rowind.getD (i + 1) 0 - rowind.getD i 0)
        (orAll A ||| orRange B (rowind.getD i 0) (rowind.getD (i + 1) 0)) := by
  have hx : (propagateSparsityGen rowind A B X true tr).2.2 =
      fwdPropLoop (orAll A) B rowind := by
    simp [propagateSparsityGen]
  rw [hx]
  have := fwdPropLoop_row (orAll A) B rowind
    (List.chain'_iff_pairwise.mp hs) i hi
  rw [h0] at this
  simpa using this

/-- Witness for C6: two right-hand-side rows over a three-nonzero pattern. -/
theorem propagateSparsity_forward_rows_witness :
    List.Chain' (· ≤ ·) [0, 2, 3] ∧ ([0, 2, 3] : List Nat).getD 0 0 = 0 ∧
    (0 : Nat) + 1 < ([0, 2, 3] : List Nat).length ∧
    (((propagateSparsityGen [0, 2, 3] [8, 16] [1, 2, 4] [0, 0, 0] true false).2.2).drop
        (([0, 2, 3] : List Nat).getD 0 0)).take
        (([0, 2, 3] : List Nat).getD 1 0 - ([0, 2, 3] : List Nat).getD 0 0) =
      List.replicate (([0, 2, 3] : List Nat).getD 1 0 - ([0, 2, 3] : List Nat).getD 0 0)
        (orAll [8, 16] |||
          orRange [1, 2, 4] (([0, 2, 3] : List Nat).getD 0 0) (([0, 2, 3] : List Nat).getD 1 0)) :=
  ⟨by simp, by decide, by decide,
   propagateSparsity_forward_rows [0, 2, 3] [8, 16] [1, 2, 4] [0, 0, 0] false 0
     (by simp) (by decide) (by decide)⟩

lemma revPropLoop_B_row (B X : List Nat) :
    ∀ (rowind : List Nat), List.Pairwise (· ≤ ·) rowind → ∀ i, i + 1 < rowind.length →
      rowind.getD (i + 1) 0 ≤ B.length →
      (((revPropLoop B X rowind).1).drop (rowind.getD i 0 - rowind.getD 0 0)).take
          (rowind.getD (i + 1) 0 - rowind.getD i 0) =
        ((B.drop (rowind.getD i 0)).take (rowind.getD (i + 1) 0 - rowind.getD i 0)).map
          (fun v => v ||| orRange X (rowind.getD i 0) (rowind.getD (i + 1) 0)) := by
  intro rowind
  induction rowind with
  | nil => intro _ i hi; simp at hi
  | cons a rest ih =>
    intro hp i hi hb
    cases rest with
    | nil => simp at hi
    | cons b rest2 =>
      have hab : a ≤ b := (List.pairwise_cons.mp hp).1 b (by simp)
      cases i with
      | zero =>
        have hb0 : b ≤ B.length := hb
        simp only [revPropLoop, List.getD_cons_zero, List.getD_cons_succ,
          Nat.sub_self, List.drop_zero]
        exact List.take_left' (by simp; omega)
      | succ j =>
        have hp2 : List.Pairwise (· ≤ ·) (b :: rest2) := (List.pairwise_cons.mp hp).2
        have hjlen : j + 1 < (b :: rest2).length := by simpa using hi
        have hbv : b ≤ (b :: rest2).getD j 0 :=
          sorted_head_le_getD b rest2 hp2 j (by omega)
        have hbw : b ≤ (b :: rest2).getD (j + 1) 0 :=
          sorted_head_le_getD b rest2 hp2 (j + 1) hjlen
        have e1 : (a :: b :: rest2).getD (j + 1) 0 = (b :: rest2).getD j 0 := rfl
        have e2 : (a :: b :: rest2).getD (j + 2) 0 = (b :: rest2).getD (j + 1) 0 := rfl
        have e0 : (a :: b :: rest2).getD 0 0 = a := rfl
        rw [e1, e2, e0]
        have hb2 : (b :: rest2).getD (j + 1) 0 ≤ B.length := by
          have : (a :: b :: rest2).getD (j + 2) 0 ≤ B.length := hb
          rw [e2] at this
          exact this
        have harith : (b :: rest2).getD j 0 - a =
            (((B.drop a).take (b - a)).map
              (fun v => v ||| orRange X a b)).length + ((b :: rest2).getD j 0 - b) := by
          simp only [List.length_map, List.length_take, List.length_drop]
          omega
        simp only [revPropLoop, harith, List.drop_append]
        have := ih hp2 j hjlen hb2
        simpa using this

lemma revPropLoop_X_mem_zero (B X : List Nat) :
    ∀ (rowind : List Nat) (x : Nat), x ∈ (revPropLoop B X rowind).2.1 → x = 0 := by
  intro rowind
  induction rowind with
  | nil => intro x hx; simp [revPropLoop] at hx
  | cons a rest ih =>
    cases rest with
    | nil => intro x hx; simp [revPropLoop] at hx
    | cons b rest2 =>
      intro x hx
      simp only [revPropLoop, List.mem_append] at hx
      cases hx with
      | inl h => exact List.eq_of_mem_replicate h
      | inr h => exact ih x h

lemma revPropLoop_agg (B X : List Nat) :
    ∀ (rowind : List Nat),
      (revPropLoop B X rowind).2.2 = (rowDeps X rowind).foldr (fun a c => a ||| c) 0 := by
  intro rowind
  induction rowind with
  | nil => rfl
  | cons a rest ih =>
    cases rest with
    | nil => rfl
    | cons b rest2 =>
      simp only [revPropLoop, rowDeps, List.foldr_cons]
      rw [ih]

/-- C7: the reverse pass of the sparsity propagator, per right-hand-side row,
ORs the row's collected X-dependency into every B mask of the row, zeroes
every X mask (so after the pass every mask of X is zero), and ORs the
aggregate of all row dependencies into every nonzero mask of A. -/
theorem propagateSparsity_reverse_rows (rowind A B X : List Nat) (tr : Bool)
    (i j : Nat) (hs : List.Chain' (· ≤ ·) rowind) (h0 : rowind.getD 0 0 = 0)
    (hi : i + 1 < rowind.length) (hb : rowind.getD (i + 1) 0 ≤ B.length)
    (hj : j < A.length) :
    ((((propagateSparsityGen rowind A B X false tr).2.1).drop (rowind.getD i 0)).take
        (rowind.getD (i + 1) 0 - rowind.getD i 0) =
      ((B.drop (rowind.getD i 0)).take (rowind.getD (i + 1) 0 - rowind.getD i 0)).map
        (fun v => v ||| orRange X (rowind.getD i 0) (rowind.getD (i + 1) 0))) ∧
    (∀ k : Nat, (((propagateSparsityGen rowind A B X false tr).2.2).getD k 0) = 0) ∧
    (((propagateSparsityGen rowind A B X false tr).1).getD j 0 =
      A.getD j 0 ||| (rowDeps X rowind).foldr (fun a c => a ||| c) 0) := by
  have hB : (propagateSparsityGen rowind A B X false tr).2.1 =
      (revPropLoop B X rowind).1 := by
    simp [propagateSparsityGen]
  have hX : (propagateSparsityGen rowind A B X false tr).2.2 =
      (revPropLoop B X rowind).2.1 := by
    simp [propagateSparsityGen]
  have hA : (propagateSparsityGen rowind A B X false tr).1 =
      A.map (fun v => v ||| (revPropLoop B X rowind).2.2) := by
    simp [propagateSparsityGen]
  refine ⟨?_, ?_, ?_⟩
  · rw [hB]
    have := revPropLoop_B_row B X rowind (List.chain'_iff_pairwise.mp hs) i hi hb
    rw [h0] at this
    simpa using this
  · intro k
    rw [hX]
    by_cases hk : k < ((revPropLoop B X rowind).2.1).length
    · rw [List.getD_eq_getElem _ 0 hk]
      exact revPropLoop_X_mem_zero B X rowind _ (List.getElem_mem hk)
    · exact List.getD_eq_default _ 0 (by omega)
  · rw [hA, getD_map_lt _ _ _ 0 _ hj, revPropLoop_agg]

/-- Witness for C7 on a two-row pattern with live X masks. -/
theorem propagateSparsity_reverse_rows_witness :
    List.Chain' (· ≤ ·) [0, 2, 3] ∧ ([0, 2, 3] : List Nat).getD 0 0 = 0 ∧
    (0 : Nat) + 1 < ([0, 2, 3] : List Nat).length ∧
    (2 : Nat) ≤ 3 ∧ (0 : Nat) < 2 ∧
    ((((propagateSparsityGen [0, 2, 3] [8, 16] [1, 2, 4] [3, 5, 6] false false).2.1).drop 0).take 2 =
      ((([1, 2, 4] : List Nat).drop 0).take 2).map (fun v => v ||| orRange [3, 5, 6] 0 2)) ∧
    (∀ k : Nat,
      (((propagateSparsityGen [0, 2, 3] [8, 16] [1, 2, 4] [3, 5, 6] false false).2.2).getD k 0) = 0) ∧
    (((propagateSparsityGen [0, 2, 3] [8, 16] [1, 2, 4] [3, 5, 6] false false).1).getD 0 0 =
      ([8, 16] : List Nat).getD 0 0 |||
        (rowDeps [3, 5, 6] [0, 2, 3]).foldr (fun a c => a ||| c) 0) := by
  have h := propagateSparsity_reverse_rows [0, 2, 3] [8, 16] [1, 2, 4] [3, 5, 6]
    false 0 0 (by simp) (by decide) (by decide) (by decide) (by decide)
  exact ⟨by simp, by decide, by decide, by decide, by decide, h.1, h.2.1, h.2.2⟩

lemma fwdCollect_fst (X : MX) (tr : Bool) :
    ∀ (fwds : List (MX × MX)) (k off : Nat),
      (fwdCollect X tr k off fwds).1 = asnList X tr k fwds := by
  intro fwds
  induction fwds with
  | nil => intro k off; rfl
  | cons s rest ih =>
    intro k off
    cases hz : isZeroMX (fwdResid X tr s) <;>
      simp [fwdCollect, asnList, hz, ih]

lemma fwdCollect_rhs (X : MX) (tr : Bool) :
    ∀ (fwds : List (MX × MX)) (k off : Nat),
      (fwdCollect X tr k off fwds).2.1 = nzResids X tr fwds := by
  intro fwds
  induction fwds with
  | nil => intro k off; rfl
  | cons s rest ih =>
    intro k off
    cases hz : isZeroMX (fwdResid X tr s) <;>
      simp [fwdCollect, nzResids, residList, List.filter_cons, hz, ih]

lemma fwdCollect_offs (X : MX) (tr : Bool) :
    ∀ (fwds : List (MX × MX)) (k off : Nat),
      (fwdCollect X tr k off fwds).2.2 = offListMX off (nzResids X tr fwds) := by
  intro fwds
  induction fwds with
  | nil => intro k off; rfl
  | cons s rest ih =>
    intro k off
    cases hz : isZeroMX (fwdResid X tr s) <;>
      simp [fwdCollect, nzResids, residList, List.filter_cons, hz, ih, offListMX]

lemma asnList_getD (X : MX) (tr : Bool) :
    ∀ (fwds : List (MX × MX)) (k d : Nat), d < fwds.length →
      (asnList X tr k fwds).getD d (Sum.inr 0) =
        (if isZeroMX (fwdResid X tr (fwds.getD d (MX.nullE, MX.nullE))) then
          Sum.inl (MX.sparseZ
            (shapeOf (fwdResid X tr (fwds.getD d (MX.nullE, MX.nullE)))).1
            (shapeOf (fwdResid X tr (fwds.getD d (MX.nullE, MX.nullE)))).2)
         else Sum.inr (k + nzCountFwd X tr (fwds.take d))) := by
  intro fwds
  induction fwds with
  | nil => intro k d hd; simp at hd
  | cons s rest ih =>
    intro k d hd
    cases d with
    | zero =>
      cases hz : isZeroMX (fwdResid X tr s) <;>
        simp [asnList, hz, nzCountFwd]
    | succ d2 =>
      have hd2 : d2 < rest.length := by simpa using hd
      have e : (s :: rest).getD (d2 + 1) (MX.nullE, MX.nullE) =
          rest.getD d2 (MX.nullE, MX.nullE) := rfl
      have etake : (s :: rest).take (d2 + 1) = s :: rest.take d2 := rfl
      cases hz : isZeroMX (fwdResid X tr s) with
      | false =>
        have e2 : (asnList X tr k (s :: rest)).getD (d2 + 1) (Sum.inr 0) =
            (asnList X tr (k + 1) rest).getD d2 (Sum.inr 0) := by
          simp [asnList, hz]
        rw [e2, ih (k + 1) d2 hd2, e, etake]
        simp only [nzCountFwd, List.countP_cons, hz]
        cases hz2 : isZeroMX (fwdResid X tr (rest.getD d2 (MX.nullE, MX.nullE))) <;>
          simp [hz2] <;> omega
      | true =>
        have e2 : (asnList X tr k (s :: rest)).getD (d2 + 1) (Sum.inr 0) =
            (asnList X tr k rest).getD d2 (Sum.inr 0) := by
          simp [asnList, hz]
        rw [e2, ih k d2 hd2, e, etake]
        simp only [nzCountFwd, List.countP_cons, hz]
        cases hz2 : isZeroMX (fwdResid X tr (rest.getD d2 (MX.nullE, MX.nullE))) <;>
          simp [hz2]

lemma asnList_length (X : MX) (tr : Bool) :
    ∀ (fwds : List (MX × MX)) (k : Nat), (asnList X tr k fwds).length = fwds.length := by
  intro fwds
  induction fwds with
  | nil => intro k; rfl
  | cons s rest ih =>
    intro k
    cases hz : isZeroMX (fwdResid X tr s) <;> simp [asnList, hz, ih]

lemma planListAdj_length :
    ∀ (adjs : List AdjDirMX) (k : Nat), (planListAdj k adjs).length = adjs.length := by
  intro adjs
  induction adjs with
  | nil => intro k; rfl
  | cons s rest ih =>
    intro k
    cases hz : isZeroMX s.seed <;> cases ha : s.aliased <;>
      simp [planListAdj, hz, ha, ih]

lemma adjCollect_fst :
    ∀ (adjs : List AdjDirMX) (k off : Nat),
      (adjCollect k off adjs).1 = planListAdj k adjs := by
  intro adjs
  induction adjs with
  | nil => intro k off; rfl
  | cons s rest ih =>
    intro k off
    cases hz : isZeroMX s.seed <;> cases ha : s.aliased <;>
      simp [adjCollect, planListAdj, hz, ha, ih]

lemma adjCollect_rhs :
    ∀ (adjs : List AdjDirMX) (k off : Nat),
      (adjCollect k off adjs).2.1 = adjRhs adjs := by
  intro adjs
  induction adjs with
  | nil => intro k off; rfl
  | cons s rest ih =>
    intro k off
    cases hz : isZeroMX s.seed <;> cases ha : s.aliased <;>
      simp [adjCollect, adjRhs, List.filter_cons, hz, ha, ih]

lemma adjCollect_offs :
    ∀ (adjs : List AdjDirMX) (k off : Nat),
      (adjCollect k off adjs).2.2 = offListMX off (adjRhs adjs) := by
  intro adjs
  induction adjs with
  | nil => intro k off; rfl
  | cons s rest ih =>
    intro k off
    cases hz : isZeroMX s.seed <;> cases ha : s.aliased <;>
      simp [adjCollect, adjRhs, List.filter_cons, hz, ha, ih, offListMX]

lemma planListAdj_getD :
    ∀ (adjs : List AdjDirMX) (k d : Nat), d < adjs.length →
      (planListAdj k adjs).getD d (AdjPlan.pending 0 MX.nullE MX.nullE false) =
        (if isZeroMX (adjs.getD d dfltAdjMX).seed then
          (if (adjs.getD d dfltAdjMX).aliased then
            AdjPlan.zeroShared (adjs.getD d dfltAdjMX).seed (adjs.getD d dfltAdjMX).sensA
           else
            AdjPlan.zeroSeparate (adjs.getD d dfltAdjMX).seed (adjs.getD d dfltAdjMX).sensA)
         else
          AdjPlan.pending (k + nzCountAdj (adjs.take d)) (adjs.getD d dfltAdjMX).sensB
            (adjs.getD d dfltAdjMX).sensA (adjs.getD d dfltAdjMX).aliased) := by
  intro adjs
  induction adjs with
  | nil => intro k d hd; simp at hd
  | cons s rest ih =>
    intro k d hd
    cases d with
    | zero =>
      cases hz : isZeroMX s.seed <;>
        simp [planListAdj, hz, nzCountAdj, dfltAdjMX]
    | succ d2 =>
      have hd2 : d2 < rest.length := by simpa using hd
      have e : (s :: rest).getD (d2 + 1) dfltAdjMX = rest.getD d2 dfltAdjMX := rfl
      have etake : (s :: rest).take (d2 + 1) = s :: rest.take d2 := rfl
      cases hz : isZeroMX s.seed with
      | false =>
        have e2 : (planListAdj k (s :: rest)).getD (d2 + 1)
              (AdjPlan.pending 0 MX.nullE MX.nullE false) =
            (planListAdj (k + 1) rest).getD d2
              (AdjPlan.pending 0 MX.nullE MX.nullE false) := by
          simp [planListAdj, hz]
        rw [e2, ih (k + 1) d2 hd2, e, etake]
        simp only [nzCountAdj, List.countP_cons, hz]
        cases hz2 : isZeroMX (rest.getD d2 dfltAdjMX).seed <;>
          simp [hz2] <;> omega
      | true =>
        have e2 : (planListAdj k (s :: rest)).getD (d2 + 1)
              (AdjPlan.pending 0 MX.nullE MX.nullE false) =
            (planListAdj k rest).getD d2
              (AdjPlan.pending 0 MX.nullE MX.nullE false) := by
          simp [planListAdj, hz]
        rw [e2, ih k d2 hd2, e, etake]
        simp only [nzCountAdj, List.countP_cons, hz]
        cases hz2 : isZeroMX (rest.getD d2 dfltAdjMX).seed <;>
          simp [hz2]

lemma evaluateMXGen_X_none (A B : MX) (tr : Bool) (fwds : List (MX × MX))
    (adjs : List AdjDirMX) :
    (evaluateMXGen A B none tr fwds adjs).X =
      if isZeroMX B then MX.sparseZ (shapeOf B).1 (shapeOf B).2
      else MX.solveN A B tr := by
  cases hz : isZeroMX B <;> simp [evaluateMXGen, hz]

lemma evaluateMXGen_nSolvePrimal_none (A B : MX) (tr : Bool)
    (fwds : List (MX × MX)) (adjs : List AdjDirMX) :
    (evaluateMXGen A B none tr fwds adjs).nSolvePrimal =
      if isZeroMX B then 0 else 1 := by
  cases hz : isZeroMX B <;> simp [evaluateMXGen, hz]

lemma evaluateMXGen_nSolveFwd (A B : MX) (Xg : Option MX) (tr : Bool)
    (fwds : List (MX × MX)) (adjs : List AdjDirMX) :
    (evaluateMXGen A B Xg tr fwds adjs).nSolveFwd =
      if (nzResids (evaluateMXGen A B Xg tr fwds adjs).X tr fwds).isEmpty then 0
      else 1 := by
  rcases Xg with _ | x
  · cases hz : isZeroMX B <;>
      simp [evaluateMXGen, hz, fwdCollect_rhs]
  · simp [evaluateMXGen, fwdCollect_rhs]

lemma nzResids_ne_nil_of (X : MX) (tr : Bool) (fwds : List (MX × MX)) (d : Nat)
    (h : d < fwds.length)
    (hnz : isZeroMX (fwdResid X tr (fwds.getD d (MX.nullE, MX.nullE))) = false) :
    nzResids X tr fwds ≠ [] := by
  intro hcon
  have hmem : fwds.getD d (MX.nullE, MX.nullE) ∈ fwds := by
    rw [List.getD_eq_getElem _ _ h]
    exact List.getElem_mem h
  have hin : fwdResid X tr (fwds.getD d (MX.nullE, MX.nullE)) ∈ nzResids X tr fwds := by
    rw [nzResids, List.mem_filter]
    exact ⟨List.mem_map_of_mem _ hmem, by simp only [hnz, Bool.not_false]⟩
  rw [hcon] at hin
  simp at hin

lemma evaluateMXGen_fwdSens_getD (A B : MX) (Xg : Option MX) (tr : Bool)
    (fwds : List (MX × MX)) (adjs : List AdjDirMX) (d : Nat) (h : d < fwds.length) :
    (evaluateMXGen A B Xg tr fwds adjs).fwdSens.getD d MX.nullE =
      (if isZeroMX (fwdResid (evaluateMXGen A B Xg tr fwds adjs).X tr
            (fwds.getD d (MX.nullE, MX.nullE))) then
        MX.sparseZ
          (shapeOf (fwdResid (evaluateMXGen A B Xg tr fwds adjs).X tr
            (fwds.getD d (MX.nullE, MX.nullE)))).1
          (shapeOf (fwdResid (evaluateMXGen A B Xg tr fwds adjs).X tr
            (fwds.getD d (MX.nullE, MX.nullE)))).2
       else
        MX.vsplitN
          (MX.solveN A
            (vertcatMX (nzResids (evaluateMXGen A B Xg tr fwds adjs).X tr fwds)) tr)
          (0 :: offListMX 0 (nzResids (evaluateMXGen A B Xg tr fwds adjs).X tr fwds))
          (nzCountFwd (evaluateMXGen A B Xg tr fwds adjs).X tr (fwds.take d))) := by
  have hX : ∀ X0 : MX,
      X0 = (evaluateMXGen A B Xg tr fwds adjs).X →
      (evaluateMXGen A B Xg tr fwds adjs).fwdSens =
        (if (nzResids X0 tr fwds).isEmpty then
          (asnList X0 tr 0 fwds).map (fun a => match a with
            | Sum.inl z => z
            | Sum.inr _ => MX.nullE)
         else
          (asnList X0 tr 0 fwds).map (fun a => match a with
            | Sum.inl z => z
            | Sum.inr i =>
              MX.vsplitN (MX.solveN A (vertcatMX (nzResids X0 tr fwds)) tr)
                (0 :: offListMX 0 (nzResids X0 tr fwds)) i)) := by
    intro X0 hX0
    rcases Xg with _ | x
    · cases hz : isZeroMX B <;>
        (rw [evaluateMXGen_X_none] at hX0 <;> simp [hz] at hX0) <;>
        subst hX0 <;>
        simp [evaluateMXGen, hz, fwdCollect_fst, fwdCollect_rhs, fwdCollect_offs]
    · have : X0 = x := by
        simpa [evaluateMXGen] using hX0
      subst this
      simp [evaluateMXGen, fwdCollect_fst, fwdCollect_rhs, fwdCollect_offs]
  rw [hX _ rfl]
  by_cases hemp : (nzResids (evaluateMXGen A B Xg tr fwds adjs).X tr fwds).isEmpty
  · rw [if_pos hemp]
    rw [getD_map_lt _ _ _ (Sum.inr 0) _ (by rw [asnList_length]; exact h),
      asnList_getD _ _ _ _ _ h]
    cases hz : isZeroMX (fwdResid (evaluateMXGen A B Xg tr fwds adjs).X tr
        (fwds.getD d (MX.nullE, MX.nullE))) with
    | true => simp [hz]
    | false =>
      exact absurd (List.isEmpty_iff.mp hemp)
        (nzResids_ne_nil_of _ _ _ _ h hz)
  · rw [if_neg hemp]
    rw [getD_map_lt _ _ _ (Sum.inr 0) _ (by rw [asnList_length]; exact h),
      asnList_getD _ _ _ _ _ h]
    cases hz : isZeroMX (fwdResid (evaluateMXGen A B Xg tr fwds adjs).X tr
        (fwds.getD d (MX.nullE, MX.nullE))) <;> simp [hz]

/-- C5: in the symbolic engine, a structurally zero `B` short-circuits the
primal to the zero expression of its shape with no solve node; every forward
direction with a structurally zero residual receives the zero expression of
the residual's shape with no solve; the remaining residuals are stacked into
one vertical concatenation, solved by at most one solve node with the same
transpose flag, and split back by the recorded row offsets at the direction's
position among the nonzero residuals. -/
theorem evaluateMXGen_forward_batching (A B : MX) (tr : Bool)
    (fwds : List (MX × MX)) (adjs : List AdjDirMX) :
    (isZeroMX B = true →
      (evaluateMXGen A B none tr fwds adjs).X = MX.sparseZ (shapeOf B).1 (shapeOf B).2 ∧
      (evaluateMXGen A B none tr fwds adjs).nSolvePrimal = 0) ∧
    (isZeroMX B = false →
      (evaluateMXGen A B none tr fwds adjs).X = MX.solveN A B tr ∧
      (evaluateMXGen A B none tr fwds adjs).nSolvePrimal = 1) ∧
    (evaluateMXGen A B none tr fwds adjs).nSolveFwd ≤ 1 ∧
    ((evaluateMXGen A B none tr fwds adjs).nSolveFwd = 0 ↔
      nzResids (evaluateMXGen A B none tr fwds adjs).X tr fwds = []) ∧
    (∀ d, d < fwds.length →
      (isZeroMX (fwdResid (evaluateMXGen A B none tr fwds adjs).X tr
          (fwds.getD d (MX.nullE, MX.nullE))) = true →
        (evaluateMXGen A B none tr fwds adjs).fwdSens.getD d MX.nullE =
          MX.sparseZ
            (shapeOf (fwdResid (evaluateMXGen A B none tr fwds adjs).X tr
              (fwds.getD d (MX.nullE, MX.nullE)))).1
            (shapeOf (fwdResid (evaluateMXGen A B none tr fwds adjs).X tr
              (fwds.getD d (MX.nullE, MX.nullE)))).2) ∧
      (isZeroMX (fwdResid (evaluateMXGen A B none tr fwds adjs).X tr
          (fwds.getD d (MX.nullE, MX.nullE))) = false →
        (evaluateMXGen A B none tr fwds adjs).fwdSens.getD d MX.nullE =
          MX.vsplitN
            (MX.solveN A
              (vertcatMX (nzResids (evaluateMXGen A B none tr fwds adjs).X tr fwds)) tr)
            (0 :: offListMX 0 (nzResids (evaluateMXGen A B none tr fwds adjs).X tr fwds))
            (nzCountFwd (evaluateMXGen A B none tr fwds adjs).X tr (fwds.take d)))) := by
  refine ⟨?_, ?_, ?_, ?_, ?_⟩
  · intro hz
    rw [evaluateMXGen_X_none, evaluateMXGen_nSolvePrimal_none]
    simp [hz]
  · intro hz
    rw [evaluateMXGen_X_none, evaluateMXGen_nSolvePrimal_none]
    simp [hz]
  · rw [evaluateMXGen_nSolveFwd]
    split <;> omega
  · rw [evaluateMXGen_nSolveFwd]
    cases hemp : (nzResids (evaluateMXGen A B none tr fwds adjs).X tr fwds).isEmpty <;>
      simp_all [List.isEmpty_iff]
  · intro d hd
    constructor
    · intro hz
      rw [evaluateMXGen_fwdSens_getD _ _ _ _ _ _ _ hd, if_pos hz]
    · intro hz
      rw [evaluateMXGen_fwdSens_getD _ _ _ _ _ _ _ hd,
        if_neg (by simp only [hz]; exact Bool.false_ne_true)]

/-- Witness for C5: two forward directions, the first with a structurally zero
residual, the second nonzero; one stacked solve node, with the zero direction
short-circuited. -/
theorem evaluateMXGen_forward_batching_witness :
    isZeroMX (MX.sym 1 1 2) = false ∧ (0 : Nat) < 2 ∧ (1 : Nat) < 2 ∧
    (evaluateMXGen (MX.sym 0 2 2) (MX.sym 1 1 2) none false
        [(MX.sparseZ 1 2, MX.sparseZ 2 2), (MX.sym 2 1 2, MX.sparseZ 2 2)]
        []).fwdSens.getD 0 MX.nullE = MX.sparseZ 1 2 ∧
    (evaluateMXGen (MX.sym 0 2 2) (MX.sym 1 1 2) none false
        [(MX.sparseZ 1 2, MX.sparseZ 2 2), (MX.sym 2 1 2, MX.sparseZ 2 2)]
        []).fwdSens.getD 1 MX.nullE =
      MX.vsplitN (MX.solveN (MX.sym 0 2 2) (vertcatMX [MX.sym 2 1 2]) false) [0, 1] 0 := by
  have h := evaluateMXGen_forward_batching (MX.sym 0 2 2) (MX.sym 1 1 2) false
    [(MX.sparseZ 1 2, MX.sparseZ 2 2), (MX.sym 2 1 2, MX.sparseZ 2 2)] []
  exact ⟨by decide, by decide, by decide,
    (h.2.2.2.2 0 (by decide)).1 (by decide),
    (h.2.2.2.2 1 (by decide)).2 (by decide)⟩

lemma adjRhs_ne_nil_of (adjs : List AdjDirMX) (d : Nat) (h : d < adjs.length)
    (hnz : isZeroMX (adjs.getD d dfltAdjMX).seed = false) : adjRhs adjs ≠ [] := by
  intro hcon
  have hmem : adjs.getD d dfltAdjMX ∈ adjs := by
    rw [List.getD_eq_getElem _ _ h]
    exact List.getElem_mem h
  have hin : (adjs.getD d dfltAdjMX).seed ∈ adjRhs adjs := by
    rw [adjRhs]
    exact List.mem_map_of_mem _
      (List.mem_filter.mpr ⟨hmem, by simp only [hnz, Bool.not_false]⟩)
  rw [hcon] at hin
  simp at hin

lemma evaluateMXGen_adj_getD (A B : MX) (Xg : Option MX) (tr : Bool)
    (fwds : List (MX × MX)) (adjs : List AdjDirMX) (d : Nat) (h : d < adjs.length) :
    (evaluateMXGen A B Xg tr fwds adjs).adj.getD d dfltOutMX =
      (if isZeroMX (adjs.getD d dfltAdjMX).seed then
        (if (adjs.getD d dfltAdjMX).aliased then
          (⟨(adjs.getD d dfltAdjMX).seed, (adjs.getD d dfltAdjMX).seed,
            (adjs.getD d dfltAdjMX).sensA⟩ : AdjOutMX)
         else
          ⟨MX.nullE, (adjs.getD d dfltAdjMX).seed, (adjs.getD d dfltAdjMX).sensA⟩)
       else
        (let sol := MX.vsplitN (MX.solveN A (vertcatMX (adjRhs adjs)) (!tr))
            (0 :: offListMX 0 (adjRhs adjs)) (nzCountAdj (adjs.take d))
         let sA2 := subMX (adjs.getD d dfltAdjMX).sensA
            (if tr then mulMX (transMX sol) (evaluateMXGen A B Xg tr fwds adjs).X
             else mulMX (transMX (evaluateMXGen A B Xg tr fwds adjs).X) sol)
         if (adjs.getD d dfltAdjMX).aliased then ⟨sol, sol, sA2⟩
         else ⟨MX.nullE, addMX (adjs.getD d dfltAdjMX).sensB sol, sA2⟩)) := by
  have hadj : ∀ X0 : MX,
      X0 = (evaluateMXGen A B Xg tr fwds adjs).X →
      (evaluateMXGen A B Xg tr fwds adjs).adj =
        (if (adjRhs adjs).isEmpty then
          (planListAdj 0 adjs).map (fun p => match p with
            | AdjPlan.zeroShared seed sA => (⟨seed, seed, sA⟩ : AdjOutMX)
            | AdjPlan.zeroSeparate seed sA => ⟨MX.nullE, seed, sA⟩
            | AdjPlan.pending _ sB sA _ => ⟨MX.nullE, sB, sA⟩)
         else
          (planListAdj 0 adjs).map (fun p => match p with
            | AdjPlan.zeroShared seed sA => (⟨seed, seed, sA⟩ : AdjOutMX)
            | AdjPlan.zeroSeparate seed sA => ⟨MX.nullE, seed, sA⟩
            | AdjPlan.pending i sB sA aliased =>
              let sol := MX.vsplitN (MX.solveN A (vertcatMX (adjRhs adjs)) (!tr))
                (0 :: offListMX 0 (adjRhs adjs)) i
              let sA2 := subMX sA (if tr then mulMX (transMX sol) X0
                else mulMX (transMX X0) sol)
              if aliased then ⟨sol, sol, sA2⟩
              else ⟨MX.nullE, addMX sB sol, sA2⟩)) := by
    intro X0 hX0
    rcases Xg with _ | x
    · cases hz : isZeroMX B <;>
        (rw [evaluateMXGen_X_none] at hX0 <;> simp [hz] at hX0) <;>
        subst hX0 <;>
        simp [evaluateMXGen, hz, adjCollect_fst, adjCollect_rhs, adjCollect_offs]
    · have hx : X0 = x := by
        simpa [evaluateMXGen] using hX0
      subst hx
      simp [evaluateMXGen, adjCollect_fst, adjCollect_rhs, adjCollect_offs]
  rw [hadj _ rfl]
  by_cases hemp : (adjRhs adjs).isEmpty
  · rw [if_pos hemp]
    rw [getD_map_lt _ _ _ (AdjPlan.pending 0 MX.nullE MX.nullE false) _
      (by rw [planListAdj_length]; exact h), planListAdj_getD _ _ _ h]
    cases hz : isZeroMX (adjs.getD d dfltAdjMX).seed with
    | true =>
      cases ha : (adjs.getD d dfltAdjMX).aliased <;> simp [hz, ha]
    | false =>
      exact absurd (List.isEmpty_iff.mp hemp) (adjRhs_ne_nil_of adjs d h hz)
  · rw [if_neg hemp]
    rw [getD_map_lt _ _ _ (AdjPlan.pending 0 MX.nullE MX.nullE false) _
      (by rw [planListAdj_length]; exact h), planListAdj_getD _ _ _ h]
    cases hz : isZeroMX (adjs.getD d dfltAdjMX).seed with
    | true =>
      cases ha : (adjs.getD d dfltAdjMX).aliased <;> simp [hz, ha]
    | false =>
      cases ha : (adjs.getD d dfltAdjMX).aliased <;> simp [hz, ha]

/-- C9 counterexample: an adjoint direction with a structurally zero seed
whose seed slot is the same graph slot as the sensitivity slot is left
holding the zero seed expression; the shared slot is not cleared to the
empty expression, contrary to the claim. -/
theorem evaluateMXGen_zero_seed_shared_clear_claim_false :
    ((evaluateMXGen (MX.sym 0 1 1) (MX.sym 1 1 1) none false []
        [⟨MX.sparseZ 1 1, MX.sparseZ 1 1, MX.sparseZ 1 1, true⟩]).adj.getD 0
      dfltOutMX).seedSlot = MX.sparseZ 1 1 ∧
    ¬ (((evaluateMXGen (MX.sym 0 1 1) (MX.sym 1 1 1) none false []
        [⟨MX.sparseZ 1 1, MX.sparseZ 1 1, MX.sparseZ 1 1, true⟩]).adj.getD 0
      dfltOutMX).seedSlot = MX.nullE) := by
  constructor <;> decide

/-- C9 as amended: every structurally zero adjoint seed short-circuits to a
zero sensitivity without contributing to the stacked solve, and the A-adjoint
slot is untouched; when the seed and the sensitivity occupy distinct graph
slots, the sensitivity slot receives the zero seed and the seed slot is
explicitly cleared to the empty expression; when they share one slot, that
slot is left holding the zero seed (it is not cleared). -/
theorem evaluateMXGen_zero_adjoint_seed (A B : MX) (Xg : Option MX) (tr : Bool)
    (fwds : List (MX × MX)) (adjs : List AdjDirMX) (d : Nat)
    (h : d < adjs.length) (hz : isZeroMX (adjs.getD d dfltAdjMX).seed = true) :
    isZeroMX ((evaluateMXGen A B Xg tr fwds adjs).adj.getD d dfltOutMX).sensBSlot = true ∧
    ((evaluateMXGen A B Xg tr fwds adjs).adj.getD d dfltOutMX).sensBSlot =
      (adjs.getD d dfltAdjMX).seed ∧
    ((evaluateMXGen A B Xg tr fwds adjs).adj.getD d dfltOutMX).sensASlot =
      (adjs.getD d dfltAdjMX).sensA ∧
    ((adjs.getD d dfltAdjMX).aliased = true →
      ((evaluateMXGen A B Xg tr fwds adjs).adj.getD d dfltOutMX).seedSlot =
        (adjs.getD d dfltAdjMX).seed) ∧
    ((adjs.getD d dfltAdjMX).aliased = false →
      ((evaluateMXGen A B Xg tr fwds adjs).adj.getD d dfltOutMX).seedSlot = MX.nullE) := by
  rw [evaluateMXGen_adj_getD _ _ _ _ _ _ _ h, if_pos hz]
  cases ha : (adjs.getD d dfltAdjMX).aliased with
  | true =>
    refine ⟨hz, rfl, rfl, fun _ => rfl, fun hc => absurd hc (by decide)⟩
  | false =>
    refine ⟨hz, rfl, rfl, fun hc => absurd hc (by decide), fun _ => rfl⟩

/-- Witness for the amended C9 at a shared-slot zero seed: the slot keeps the
zero seed and the sensitivity is that zero expression. -/
theorem evaluateMXGen_zero_adjoint_seed_witness :
    (0 : Nat) < 1 ∧ isZeroMX (MX.sparseZ 1 1) = true ∧
    (isZeroMX ((evaluateMXGen (MX.sym 0 1 1) (MX.sym 1 1 1) none false []
        [⟨MX.sparseZ 1 1, MX.sparseZ 1 1, MX.sparseZ 1 1, true⟩]).adj.getD 0
      dfltOutMX).sensBSlot = true ∧
     ((evaluateMXGen (MX.sym 0 1 1) (MX.sym 1 1 1) none false []
        [⟨MX.sparseZ 1 1, MX.sparseZ 1 1, MX.sparseZ 1 1, true⟩]).adj.getD 0
      dfltOutMX).sensBSlot = MX.sparseZ 1 1 ∧
     ((evaluateMXGen (MX.sym 0 1 1) (MX.sym 1 1 1) none false []
        [⟨MX.sparseZ 1 1, MX.sparseZ 1 1, MX.sparseZ 1 1, true⟩]).adj.getD 0
      dfltOutMX).sensASlot = MX.sparseZ 1 1 ∧
     (true = true →
      ((evaluateMXGen (MX.sym 0 1 1) (MX.sym 1 1 1) none false []
        [⟨MX.sparseZ 1 1, MX.sparseZ 1 1, MX.sparseZ 1 1, true⟩]).adj.getD 0
      dfltOutMX).seedSlot = MX.sparseZ 1 1) ∧
     (true = false →
      ((evaluateMXGen (MX.sym 0 1 1) (MX.sym 1 1 1) none false []
        [⟨MX.sparseZ 1 1, MX.sparseZ 1 1, MX.sparseZ 1 1, true⟩]).adj.getD 0
      dfltOutMX).seedSlot = MX.nullE)) :=
  ⟨by decide, by decide,
   evaluateMXGen_zero_adjoint_seed (MX.sym 0 1 1) (MX.sym 1 1 1) none false []
     [⟨MX.sparseZ 1 1, MX.sparseZ 1 1, MX.sparseZ 1 1, true⟩] 0 (by decide) (by decide)⟩

lemma sizeMX_foldl_vcat (l : List MX) :
    ∀ (a : MX), sizeMX a ≤ sizeMX (l.foldl MX.vcat2 a) := by
  induction l with
  | nil => intro a; exact le_refl _
  | cons x xs ih =>
    intro a
    have h1 : sizeMX a ≤ sizeMX (MX.vcat2 a x) := by
      simp only [sizeMX]
      omega
    exact le_trans h1 (ih (MX.vcat2 a x))

lemma sizeMX_mem_foldl_vcat (l : List MX) :
    ∀ (a x : MX), x ∈ l → sizeMX x ≤ sizeMX (l.foldl MX.vcat2 a) := by
  induction l with
  | nil => intro a x hx; simp at hx
  | cons y ys ih =>
    intro a x hx
    rcases List.mem_cons.mp hx with he | hm
    · subst he
      have h1 : sizeMX x ≤ sizeMX (MX.vcat2 a x) := by
        simp only [sizeMX]
        omega
      exact le_trans h1 (sizeMX_foldl_vcat ys (MX.vcat2 a x))
    · exact ih (MX.vcat2 a y) x hm

lemma sizeMX_mem_vertcat (l : List MX) (x : MX) (hx : x ∈ l) :
    sizeMX x ≤ sizeMX (vertcatMX l) := by
  cases l with
  | nil => simp at hx
  | cons y ys =>
    rw [vertcatMX]
    rcases List.mem_cons.mp hx with he | hm
    · subst he
      exact sizeMX_foldl_vcat ys x
    · exact sizeMX_mem_foldl_vcat ys y x hm

lemma vsplit_solve_ne_mem (A : MX) (l : List MX) (b : Bool) (offs : List Nat)
    (i : Nat) (x : MX) (hx : x ∈ l) :
    MX.vsplitN (MX.solveN A (vertcatMX l) b) offs i ≠ x := by
  intro he
  have h1 : sizeMX x ≤ sizeMX (vertcatMX l) := sizeMX_mem_vertcat l x hx
  have h2 : sizeMX (MX.vsplitN (MX.solveN A (vertcatMX l) b) offs i) =
      sizeMX A + sizeMX (vertcatMX l) + 2 := by
    simp only [sizeMX]
  rw [he] at h2
  omega

/-- C10: every adjoint seed slot holding a structurally nonzero seed is
cleared to the empty expression as the seed is collected, and the original
seed expression never survives in that slot after the pass: a separate seed
slot ends empty, and a slot shared with the sensitivity ends holding the
split component of the stacked adjoint solve, which strictly contains (hence
differs from) the seed expression. -/
theorem evaluateMXGen_nonzero_adjoint_seed_cleared (A B : MX) (Xg : Option MX)
    (tr : Bool) (fwds : List (MX × MX)) (adjs : List AdjDirMX) (d : Nat)
    (h : d < adjs.length) (hnz : isZeroMX (adjs.getD d dfltAdjMX).seed = false) :
    ((adjs.getD d dfltAdjMX).aliased = false →
      ((evaluateMXGen A B Xg tr fwds adjs).adj.getD d dfltOutMX).seedSlot = MX.nullE) ∧
    ((adjs.getD d dfltAdjMX).aliased = true →
      ((evaluateMXGen A B Xg tr fwds adjs).adj.getD d dfltOutMX).seedSlot =
        MX.vsplitN (MX.solveN A (vertcatMX (adjRhs adjs)) (!tr))
          (0 :: offListMX 0 (adjRhs adjs)) (nzCountAdj (adjs.take d))) ∧
    ((evaluateMXGen A B Xg tr fwds adjs).adj.getD d dfltOutMX).seedSlot ≠
      (adjs.getD d dfltAdjMX).seed := by
  have hseed : (adjs.getD d dfltAdjMX).seed ∈ adjRhs adjs := by
    have hmem : adjs.getD d dfltAdjMX ∈ adjs := by
      rw [List.getD_eq_getElem _ _ h]
      exact List.getElem_mem h
    rw [adjRhs]
    exact List.mem_map_of_mem _
      (List.mem_filter.mpr ⟨hmem, by simp only [hnz, Bool.not_false]⟩)
  rw [evaluateMXGen_adj_getD _ _ _ _ _ _ _ h,
    if_neg (by simp only [hnz]; exact Bool.false_ne_true)]
  cases ha : (adjs.getD d dfltAdjMX).aliased with
  | false =>
    refine ⟨fun _ => rfl, fun hc => absurd hc (by decide), ?_⟩
    intro hc
    have h2 : isZeroMX (adjs.getD d dfltAdjMX).seed = true := hc ▸ rfl
    rw [hnz] at h2
    exact absurd h2 Bool.false_ne_true
  | true =>
    refine ⟨fun hc => absurd hc (by decide), fun _ => rfl, ?_⟩
    exact vsplit_solve_ne_mem A (adjRhs adjs) (!tr)
      (0 :: offListMX 0 (adjRhs adjs)) (nzCountAdj (adjs.take d)) _ hseed

/-- Witness for C10 at a shared-slot nonzero seed: after the pass the shared
slot holds the split adjoint solve and not the seed. -/
theorem evaluateMXGen_nonzero_adjoint_seed_cleared_witness :
    (0 : Nat) < 1 ∧ isZeroMX (MX.sym 3 1 2) = false ∧
    ((true = false →
      ((evaluateMXGen (MX.sym 0 2 2) (MX.sym 1 1 2) none false []
        [⟨MX.sym 3 1 2, MX.nullE, MX.sparseZ 2 2, true⟩]).adj.getD 0
        dfltOutMX).seedSlot = MX.nullE) ∧
     (true = true →
      ((evaluateMXGen (MX.sym 0 2 2) (MX.sym 1 1 2) none false []
        [⟨MX.sym 3 1 2, MX.nullE, MX.sparseZ 2 2, true⟩]).adj.getD 0
        dfltOutMX).seedSlot =
        MX.vsplitN (MX.solveN (MX.sym 0 2 2) (vertcatMX [MX.sym 3 1 2]) true) [0, 1] 0) ∧
     ((evaluateMXGen (MX.sym 0 2 2) (MX.sym 1 1 2) none false []
        [⟨MX.sym 3 1 2, MX.nullE, MX.sparseZ 2 2, true⟩]).adj.getD 0
        dfltOutMX).seedSlot ≠ MX.sym 3 1 2) :=
  ⟨by decide, by decide,
   evaluateMXGen_nonzero_adjoint_seed_cleared (MX.sym 0 2 2) (MX.sym 1 1 2) none
     false [] [⟨MX.sym 3 1 2, MX.nullE, MX.sparseZ 2 2, true⟩] 0 (by decide) (by decide)⟩
